import Mathlib

/-!
Shallow embedding of `cimap.go` from github.com/projectbarks/cimap: a
case-insensitive map from string keys to values of a type `T`, stored as a
Go map from 64-bit hashes to singly linked collision chains.

Modelling choices, kept close to the source:
* Go strings are iterated rune by rune (`for _, r := range key`); keys are
  therefore embedded as lists of Unicode code points (`List Nat`).
* `hash64 = uint64` is embedded as `Nat` with an explicit `% 2 ^ 64` at the
  multiplication, the only step that can overflow.
* The Go built-in `map[hash64]*node[T]` is embedded as an association list
  with at most one binding per key; the write operation updates the first
  binding in place and the erase operation removes every binding with the
  key (on single-binding states, exactly Go's `delete`). Go map iteration
  order is unspecified, so the model's list order is one admissible order.
* Pointer-receiver methods are embedded as functions from the table state;
  mutators return the new state, observers return their result (state-
  passing wrappers for the observers appear further down).
-/

/-- A Go string, as the sequence of runes `for ... range` yields. -/
abbrev Str : Type := List Nat

/-- Go's `unicode.ToLower`, modelled on the code points used in this
development: ASCII, the Latin-1 uppercase range (`À`–`Þ` except `×`), and
the compatibility points KELVIN SIGN (U+212A, lowers to `k`) and ANGSTROM
SIGN (U+212B, lowers to `å`). Code points without a simple lowercase
mapping — including U+017F LATIN SMALL LETTER LONG S and U+00B5 MICRO
SIGN, which are already lowercase — map to themselves, as `ToLower`
does. -/
def toLowerRune (r : Nat) : Nat :=
  if 65 ≤ r ∧ r ≤ 90 then r + 32
  else if 192 ≤ r ∧ r ≤ 222 ∧ r ≠ 215 then r + 32
  else if r = 8490 then 107
  else if r = 8491 then 229
  else r

/-- The canonical representative of a code point's simple case-fold orbit,
as walked by Go's `unicode.SimpleFold`, modelled on the code points used
in this development. Per the Unicode `CaseFolding` data used by Go:
`S`/`s`/`ſ` (U+017F) form one orbit, `Μ` (U+039C)/`µ` (U+00B5)/`μ`
(U+03BC) form one, `K`/`k`/KELVIN form one, `Å`/`å`/ANGSTROM form one;
for the remaining modelled points the orbit is the upper/lower case pair,
represented by the lowercase. -/
def foldRune (r : Nat) : Nat :=
  if r = 383 then 115
  else if r = 181 then 956
  else if r = 924 then 956
  else toLowerRune r

/-- Go's `strings.EqualFold`: two strings are equal under simple Unicode
case folding iff they have equal length and corresponding runes lie in
the same fold orbit — i.e. their orbit representatives agree. -/
def eqFold (s t : Str) : Bool :=
  s.map foldRune == t.map foldRune

/-- `offset64`, the FNV-1a 64-bit offset basis from the source. -/
def offset64 : Nat := 14695981039346656037

/-- `prime64`, the FNV-1a 64-bit prime from the source. -/
def prime64 : Nat := 1099511628211

/-- One step of `defaultHashString`'s loop: `h *= prime64; h ^= uint64(unicode.ToLower(r))`.
The multiplication wraps at 2^64; the xor cannot leave 64 bits. -/
def hashStep (h r : Nat) : Nat :=
  ((h * prime64) % (2 ^ 64)) ^^^ toLowerRune r

/-- `defaultHashString` from the source: FNV-1a over the lower-cased runes. -/
def defaultHashString (key : Str) : Nat :=
  key.foldl hashStep offset64

/-- Modelled from the spec: "Accumulator starts at the FNV offset basis
(14695981039346656037), and for each character: multiply by the FNV prime
(1099511628211), then exclusive-or with the lower-cased character's code
point", in 64-bit arithmetic. Stated separately, in the spec's own words,
to compare against the source's `defaultHashString`. -/
def specDefaultHash (key : Str) : Nat :=
  key.foldl (fun h r => ((h * 1099511628211) % (2 ^ 64)) ^^^ toLowerRune r)
    14695981039346656037

/-- Lookup in the embedded Go map: first binding with the given key. -/
def mapFind {κ α : Type} [DecidableEq κ] (h : κ) : List (κ × α) → Option α
  | [] => none
  | (h0, a) :: rest => if h0 = h then some a else mapFind h rest

/-- Write to the embedded Go map (`m[h] = a`): update the first binding in
place, or append a new binding at the end. -/
def mapSet {κ α : Type} [DecidableEq κ] (h : κ) (a : α) :
    List (κ × α) → List (κ × α)
  | [] => [(h, a)]
  | (h0, b) :: rest =>
      if h0 = h then (h0, a) :: rest else (h0, b) :: mapSet h a rest

/-- Erase from the embedded Go map (`delete(m, h)`): remove every binding
with the key. A Go map holds at most one binding per key, so on the states
that arise this is exactly the removal of the single binding. -/
def mapErase {κ α : Type} [DecidableEq κ] (h : κ) :
    List (κ × α) → List (κ × α)
  | [] => []
  | (h0, b) :: rest =>
      if h0 = h then mapErase h rest else (h0, b) :: mapErase h rest

/-- A collision chain: the entries reachable from a bucket's head `node`
by following `Next` links. Each entry carries `Key` (original casing, as
last written) and `Value`. -/
abbrev Chain (T : Type) : Type := List (Str × T)

/-- `CaseInsensitiveMap[T]` from the source: `size` (Go `int`), the stored
hash function `hashString`, and `internalMap` from 64-bit hash to the
bucket's chain. -/
structure CIMap (T : Type) : Type where
  size : Int
  hashString : Str → Nat
  internalMap : List (Nat × Chain T)

/-- `New` from the source: empty bucket store, size 0, default hasher.
The optional capacity argument only pre-sizes Go's map allocation and has
no observable effect, so it is omitted. -/
def CIMap.New (T : Type) : CIMap T :=
  ⟨0, defaultHashString, []⟩

/-- `node.insertOrReplace` from the source: walk the chain; at the first
entry whose key is fold-equal to `key`, overwrite the stored key (adopting
the new casing) and the value, returning `true`; if the chain is exhausted,
append a new entry at the tail and return `false`. -/
def insertOrReplace {T : Type} : Chain T → Str → T → Chain T × Bool
  | [], key, val => ([(key, val)], false)
  | (k0, v0) :: rest, key, val =>
      if eqFold k0 key then ((key, val) :: rest, true)
      else
        let r := insertOrReplace rest key val
        ((k0, v0) :: r.1, r.2)

/-- `Add` from the source: if the bucket for `hashString k` exists, run
`insertOrReplace` on its chain and increment `size` only when no entry was
replaced; otherwise store a fresh single-entry chain and increment
`size`. -/
def CIMap.Add {T : Type} (c : CIMap T) (k : Str) (val : T) : CIMap T :=
  match mapFind (c.hashString k) c.internalMap with
  | some n =>
      let r := insertOrReplace n k val
      { c with
        internalMap := mapSet (c.hashString k) r.1 c.internalMap
        size := if r.2 then c.size else c.size + 1 }
  | none =>
      { c with
        internalMap := mapSet (c.hashString k) [(k, val)] c.internalMap
        size := c.size + 1 }

/-- The loop body of `Get`: first entry of a chain whose key is fold-equal
to `k`, skipping entries that are not. -/
def chainGet {T : Type} : Chain T → Str → Option T
  | [], _ => none
  | (k0, v0) :: rest, k => if eqFold k0 k then some v0 else chainGet rest k

/-- `Get` from the source: walk the chain of bucket `hashString k` (an
absent bucket reads as the empty chain, Go's nil) and return the first
fold-equal entry's value. `Option` stands for Go's `(T, bool)` with the
zero value. -/
def CIMap.Get {T : Type} (c : CIMap T) (k : Str) : Option T :=
  chainGet ((mapFind (c.hashString k) c.internalMap).getD []) k

/-- The interior loop of `node.delete`: unlink the first entry after the
head whose key is fold-equal to `key` (`prev.Next = prev.Next.Next`),
reporting whether one was found. -/
def interiorDelete {T : Type} : Chain T → Str → Chain T × Bool
  | [], _ => ([], false)
  | (k0, v0) :: rest, key =>
      if eqFold k0 key then (rest, true)
      else
        let r := interiorDelete rest key
        ((k0, v0) :: r.1, r.2)

/-- `node.delete` from the source. When the head matches, the source
reassigns only the local variable (`n = n.Next`) and returns `true`, so
the chain itself is unchanged here; otherwise the first interior match is
unlinked in place. The `Bool` reports whether a fold-equal entry was
found anywhere in the chain. -/
def nodeDelete {T : Type} : Chain T → Str → Chain T × Bool
  | [], _ => ([], false)
  | (k0, v0) :: rest, key =>
      if eqFold k0 key then ((k0, v0) :: rest, true)
      else
        let r := interiorDelete rest key
        ((k0, v0) :: r.1, r.2)

/-- `Delete` from the source: if the bucket for `hashString k` exists and
`node.delete` reports a match, the caller removes the whole bucket from
the bucket store (`delete(c.internalMap, c.hashString(k))`) — discarding
the chain, including any entries `node.delete` left linked — and
decrements `size` by one. Otherwise nothing changes. -/
def CIMap.Delete {T : Type} (c : CIMap T) (k : Str) : CIMap T :=
  match mapFind (c.hashString k) c.internalMap with
  | some n =>
      if (nodeDelete n k).2 then
        { c with
          internalMap := mapErase (c.hashString k) c.internalMap
          size := c.size - 1 }
      else c
  | none => c

/-- `GetAndDel` from the source: `Get`, and on a hit `Delete` the same
key; returns the new state and the looked-up value. -/
def CIMap.GetAndDel {T : Type} (c : CIMap T) (k : Str) :
    CIMap T × Option T :=
  match c.Get k with
  | some v => (c.Delete k, some v)
  | none => (c, none)

/-- `GetOrSet` from the source: on a hit return the stored value and leave
the table alone; on a miss `Add` the supplied value and return it. -/
def CIMap.GetOrSet {T : Type} (c : CIMap T) (k : Str) (val : T) :
    CIMap T × T :=
  match c.Get k with
  | some v => (c, v)
  | none => (c.Add k val, val)

/-- `Len` from the source: the `size` field. -/
def CIMap.Len {T : Type} (c : CIMap T) : Int :=
  c.size

/-- `Clear` from the source: fresh bucket store, `size` 0; the installed
hash function is untouched. -/
def CIMap.Clear {T : Type} (c : CIMap T) : CIMap T :=
  { c with internalMap := [], size := 0 }

/-- `SetHasher` from the source: install `fn`, and when `size > 0` rebuild
the bucket store by storing each existing bucket's whole chain under
`fn` of its head entry's key (`newMap[hashString(v.Key)] = v`) — a Go map
assignment, so a later chain whose head collides under `fn` overwrites an
earlier one. -/
def CIMap.SetHasher {T : Type} (c : CIMap T) (fn : Str → Nat) : CIMap T :=
  if c.size > 0 then
    { size := c.size
      hashString := fn
      internalMap :=
        c.internalMap.foldl
          (fun acc b =>
            match b.2 with
            | [] => acc
            | (k0, _) :: _ => mapSet (fn k0) b.2 acc)
          [] }
  else { c with hashString := fn }

/-- The entries reachable by walking every bucket's chain, in bucket-store
order. -/
def entriesOf {T : Type} : List (Nat × Chain T) → List (Str × T)
  | [] => []
  | b :: rest => b.2 ++ entriesOf rest

/-- All entries reachable from the table, the quantity the spec's `size`
invariant counts. -/
def CIMap.reachableEntries {T : Type} (c : CIMap T) : List (Str × T) :=
  entriesOf c.internalMap

/-- One chain's worth of the traversal shared by `Keys`, `Iterator` and
`ForEach`: invoke the consumer entry by entry; return the entries the
consumer was invoked on and whether traversal may continue. -/
def chainTraverse {T : Type} (f : Str → T → Bool) :
    Chain T → Chain T × Bool
  | [] => ([], true)
  | (k, v) :: rest =>
      if f k v then
        let r := chainTraverse f rest
        ((k, v) :: r.1, r.2)
      else ([(k, v)], false)

/-- The bucket loop shared by `Keys`, `Iterator` and `ForEach`: traverse
bucket after bucket, stopping as soon as the consumer signals stop; the
result is the sequence of entries the consumer was invoked on. -/
def bucketsTraverse {T : Type} (f : Str → T → Bool) :
    List (Nat × Chain T) → Chain T
  | [] => []
  | b :: rest =>
      let r := chainTraverse f b.2
      if r.2 then r.1 ++ bucketsTraverse f rest else r.1

/-- `ForEach` from the source, as the sequence of (key, value) pairs the
consumer is invoked on (it stops as soon as the consumer returns false). -/
def CIMap.ForEach {T : Type} (c : CIMap T) (f : Str → T → Bool) :
    Chain T :=
  bucketsTraverse f c.internalMap

/-- `Iterator` from the source: the same loop as `ForEach`, surfaced as an
`iter.Seq2`; modelled identically as the sequence of visited pairs. -/
def CIMap.Iterator {T : Type} (c : CIMap T) (f : Str → T → Bool) :
    Chain T :=
  bucketsTraverse f c.internalMap

/-- `Keys` from the source: the same loop, yielding only the keys to a
consumer of keys. -/
def CIMap.Keys {T : Type} (c : CIMap T) (f : Str → Bool) : List Str :=
  (bucketsTraverse (fun k _ => f k) c.internalMap).map Prod.fst

/-- `MarshalJSON` from the source, up to the external `json.Marshal` call:
build a Go `map[string]T` (keyed by the exact stored key string) from all
reachable entries; that flat mapping is what gets encoded. -/
def CIMap.marshalPairs {T : Type} (c : CIMap T) : List (Str × T) :=
  c.internalMap.foldl
    (fun acc b => b.2.foldl (fun acc2 e => mapSet e.1 e.2 acc2) acc) []

/-- `UnmarshalJSON` from the source. `json.Unmarshal` is Go standard
library code outside this repository, so its outcome on the input bytes is
a parameter: `none` models a decode error, `some pairs` a successfully
decoded flat string-keyed object in the decoder's iteration order. On a
decode error the source returns the error at once — before touching
`internalMap` or `size`. On success it resets the bucket store and size
and `Add`s every decoded pair. (The source's nil-hasher guard serves
zero-value receivers; tables in this development always carry a hasher,
which the guard then leaves in place.) The `Bool` is true on success,
false when the decode error is propagated. -/
def CIMap.unmarshalJSON {T : Type} (c : CIMap T)
    (decoded : Option (List (Str × T))) : CIMap T × Bool :=
  match decoded with
  | none => (c, false)
  | some pairs =>
      let cleared := { c with internalMap := [], size := 0 }
      (pairs.foldl (fun acc p => acc.Add p.1 p.2) cleared, true)

/-- State-passing form of `Get`: the Go method reads through its pointer
receiver and assigns no field, so the receiver comes back as-is. -/
def CIMap.GetOp {T : Type} (c : CIMap T) (k : Str) :
    CIMap T × Option T :=
  (c, c.Get k)

/-- State-passing form of `Len`. -/
def CIMap.LenOp {T : Type} (c : CIMap T) : CIMap T × Int :=
  (c, c.Len)

/-- State-passing form of `Keys`. -/
def CIMap.KeysOp {T : Type} (c : CIMap T) (f : Str → Bool) :
    CIMap T × List Str :=
  (c, c.Keys f)

/-- State-passing form of `Iterator`. -/
def CIMap.IteratorOp {T : Type} (c : CIMap T) (f : Str → T → Bool) :
    CIMap T × Chain T :=
  (c, c.Iterator f)

/-- State-passing form of `ForEach`. -/
def CIMap.ForEachOp {T : Type} (c : CIMap T) (f : Str → T → Bool) :
    CIMap T × Chain T :=
  (c, c.ForEach f)

/-- State-passing form of `MarshalJSON` (the flat mapping it encodes). -/
def CIMap.MarshalOp {T : Type} (c : CIMap T) : CIMap T × List (Str × T) :=
  (c, c.marshalPairs)

/-- All runes of a string are ASCII (code points below 128). -/
def allASCII : Str → Bool
  | [] => true
  | r :: rest => decide (r < 128) && allASCII rest

/-- The pathological hash function from the spec's collision scenario and
the repository's own tests: the key's length. It is case-insensitive
(simple case folding preserves rune count) but collides freely. -/
def lenHasher : Str → Nat := fun s => s.length

/-- The runes of "dog". -/
def kDog : Str := [100, 111, 103]

/-- The runes of "cat". -/
def kCat : Str := [99, 97, 116]

/-- The runes of "cdf". -/
def kCdf : Str := [99, 100, 102]

/-- The runes of "abc". -/
def kAbcLower : Str := [97, 98, 99]

/-- The runes of "ABC". -/
def kAbcUpper : Str := [65, 66, 67]

/-- The table of the repository's own interior-deletion collision test:
with the length hasher, "cdf" and "abc" share bucket 3; then `Delete`
of "ABC" matches the interior entry "abc". -/
def m1 : CIMap Nat :=
  (((((CIMap.New Nat).SetHasher lenHasher).Add kCdf 123).Add
      kAbcLower 456).Delete kAbcUpper)

/-- With the length hasher, "dog" and "cat" share bucket 3; then `Delete`
of "dog" matches the chain head. -/
def badTable : CIMap Nat :=
  (((((CIMap.New Nat).SetHasher lenHasher).Add kDog 1).Add
      kCat 2).Delete kDog)

/-- Two single-rune keys "a" and "b" inserted under the default hasher
(distinct buckets), then rehashed with the length hasher, under which
both chain heads hash to 1. -/
def m3 : CIMap Nat :=
  (((CIMap.New Nat).Add [97] 1).Add [98] 2).SetHasher lenHasher

/-- A table holding one entry under the key "a", for the decode-failure
scenarios. -/
def c4t : CIMap Nat := (CIMap.New Nat).Add [97] 5

/-- With the default hasher, `Add` of "s" (U+0073) and then of "ſ"
(U+017F): the two keys are equal under Go's simple case folding yet hash
to different buckets, so both entries coexist. -/
def m6 : CIMap Nat := ((CIMap.New Nat).Add [115] 1).Add [383] 2

/-- A hash function that is not constant with respect to letter case: the
first rune (0 for the empty string). `SetHasher` installs whatever it is
given. -/
def firstHasher : Str → Nat := fun s => s.headD 0

/-- Under `firstHasher`, "a" and "A" land in different buckets, so both
entries coexist even though the keys are fold-equal. -/
def m7 : CIMap Nat :=
  (((CIMap.New Nat).SetHasher firstHasher).Add [97] 1).Add [65] 2

/-- A table holding one entry under the key "temp". -/
def c7w : CIMap Nat := (CIMap.New Nat).Add [116, 101, 109, 112] 5

/-- A two-entry table under the default hasher ("dog" and "cat" occupy
distinct buckets). -/
def c9t : CIMap Nat := ((CIMap.New Nat).Add kDog 1).Add kCat 2

theorem eqFold_refl (s : Str) : eqFold s s = true := by
  simp [eqFold]

theorem eqFold_iff (s t : Str) :
    eqFold s t = true ↔ s.map foldRune = t.map foldRune := by
  simp [eqFold]

theorem eqFold_comm_false (a b : Str) (h : eqFold a b = false) :
    eqFold b a = false := by
  simp [eqFold] at h ⊢
  exact fun he => h he.symm

theorem mapFind_mapErase_self {α : Type} (h : Nat) :
    ∀ l : List (Nat × α), mapFind h (mapErase h l) = none
  | [] => rfl
  | (h0, b) :: rest => by
      by_cases he : h0 = h
      · simp [mapErase, he, mapFind_mapErase_self h rest]
      · simp [mapErase, he, mapFind, mapFind_mapErase_self h rest]

theorem interiorDelete_found {T : Type} :
    ∀ (ch : Chain T) (k : Str) (v : T), chainGet ch k = some v →
      (interiorDelete ch k).2 = true
  | [], k, v, h => by simp [chainGet] at h
  | (k0, v0) :: rest, k, v, h => by
      by_cases he : eqFold k0 k
      · simp [interiorDelete, he]
      · simp [chainGet, he] at h
        simp [interiorDelete, he]
        exact interiorDelete_found rest k v h

theorem nodeDelete_found {T : Type} (ch : Chain T) (k : Str) (v : T)
    (h : chainGet ch k = some v) : (nodeDelete ch k).2 = true := by
  match ch with
  | [] => simp [chainGet] at h
  | (k0, v0) :: rest =>
      by_cases he : eqFold k0 k
      · simp [nodeDelete, he]
      · simp [chainGet, he] at h
        simp [nodeDelete, he]
        exact interiorDelete_found rest k v h

theorem chainTraverse_true {T : Type} :
    ∀ ch : Chain T, chainTraverse (fun _ _ => true) ch = (ch, true)
  | [] => rfl
  | (k, v) :: rest => by
      simp [chainTraverse, chainTraverse_true rest]

theorem bucketsTraverse_true {T : Type} :
    ∀ l : List (Nat × Chain T),
      bucketsTraverse (fun _ _ => true) l = entriesOf l
  | [] => rfl
  | b :: rest => by
      simp [bucketsTraverse, chainTraverse_true, entriesOf,
        bucketsTraverse_true rest]

theorem bucketsTraverse_false {T : Type} :
    ∀ l : List (Nat × Chain T), entriesOf l ≠ [] →
      (bucketsTraverse (fun _ _ => false) l).length = 1
  | [], h => absurd rfl h
  | b :: rest, h => by
      cases hb : b.2 with
      | nil =>
          have hr : entriesOf rest ≠ [] := by
            simpa [entriesOf, hb] using h
          simp [bucketsTraverse, hb, chainTraverse,
            bucketsTraverse_false rest hr]
      | cons e ch =>
          obtain ⟨ek, ev⟩ := e
          simp [bucketsTraverse, hb, chainTraverse]

theorem foldRune_ascii (r : Nat) (h : r < 128) : foldRune r = toLowerRune r := by
  unfold foldRune
  rw [if_neg (by omega), if_neg (by omega), if_neg (by omega)]

theorem map_toLower_eq_of_fold :
    ∀ s t : Str, allASCII s = true → allASCII t = true →
      s.map foldRune = t.map foldRune →
      s.map toLowerRune = t.map toLowerRune
  | [], [], _, _, _ => rfl
  | [], _ :: _, _, _, h => by simp at h
  | _ :: _, [], _, _, h => by simp at h
  | a :: s, b :: t, hs, ht, h => by
      simp [allASCII] at hs ht
      simp at h ⊢
      refine ⟨?_, map_toLower_eq_of_fold s t ?_ ?_ h.2⟩
      · rw [← foldRune_ascii a hs.1, ← foldRune_ascii b ht.1]
        exact h.1
      · exact hs.2
      · exact ht.2

theorem foldl_hashStep_congr :
    ∀ (s t : Str) (acc : Nat), s.map toLowerRune = t.map toLowerRune →
      s.foldl hashStep acc = t.foldl hashStep acc
  | [], [], _, _ => rfl
  | [], _ :: _, _, h => by simp at h
  | _ :: _, [], _, h => by simp at h
  | a :: s, b :: t, acc, h => by
      simp at h
      have hstep : hashStep acc a = hashStep acc b := by
        unfold hashStep
        rw [h.1]
      simp only [List.foldl_cons, hstep]
      exact foldl_hashStep_congr s t (hashStep acc b) h.2

theorem defaultHash_eq_of_eqFold_ascii (s t : Str)
    (hs : allASCII s = true) (ht : allASCII t = true)
    (he : eqFold s t = true) : defaultHashString s = defaultHashString t :=
  foldl_hashStep_congr s t offset64
    (map_toLower_eq_of_fold s t hs ht ((eqFold_iff s t).mp he))

/-- Claim C1. The source's `Delete` removes the entire bucket whenever
`node.delete` reports any match: after inserting "cdf" and "abc" into one
bucket (length hasher) and deleting "ABC", the claim says only the
interior entry "abc" is unlinked, leaving "cdf" reachable; the code
leaves "cdf" unreachable, the bucket gone, and `size` 1 with nothing
stored. -/
theorem C1_delete_removes_whole_bucket :
    m1.Get kCdf = none ∧ m1.Len = 1 ∧ m1.reachableEntries = [] := by
  decide

/-- Claim C2. A state reachable by public operations (`New`, `SetHasher`
with the length hasher, two `Add`s into one bucket, one `Delete`) where
the `size` field is 1 while no entry is reachable in any chain: the size
invariant the claim states is broken by the code. -/
theorem C2_size_invariant_broken :
    badTable.Len = 1 ∧ badTable.reachableEntries = [] := by
  decide

/-- Claim C3. `SetHasher` stores each old bucket's whole chain under the
new hash of its head entry only, and colliding heads overwrite each
other: rehashing the two-entry table {"a" 1, "b" 2} with the
(case-insensitive) length hasher preserves `Len` but makes "a"
irretrievable, contradicting the claim that every pair stays retrievable. -/
theorem C3_rehash_loses_entries :
    m3.Len = 2 ∧ m3.Get [97] = none ∧ m3.Get [98] = some 2 := by
  decide

/-- Claim C4, counterexample to the claim as stated: on a decode failure
the source returns the error before touching the table, so the prior
contents are NOT cleared — the table still holds its entry and `Len` is
still 1. -/
theorem C4_not_cleared_on_error :
    (c4t.unmarshalJSON none).2 = false ∧
    (c4t.unmarshalJSON none).1.reachableEntries = [([97], 5)] ∧
    (c4t.unmarshalJSON none).1.Len = 1 := by
  decide

/-- Claim C4 as amended: decoding fails exactly when the input cannot be
parsed into a flat string-keyed mapping, and on failure the table is left
exactly as it was — clearing happens only on a successful decode. -/
theorem C4_unmarshal_error_behavior {T : Type} (c : CIMap T)
    (decoded : Option (List (Str × T))) :
    (((c.unmarshalJSON decoded).2 = false) ↔ decoded = none) ∧
    (decoded = none → (c.unmarshalJSON decoded).1 = c) := by
  cases decoded <;> simp [CIMap.unmarshalJSON]

/-- Witness for C4: at the concrete table `c4t` and a failing decode, the
table is unchanged. -/
theorem C4_unmarshal_error_witness :
    (c4t.unmarshalJSON (none : Option (List (Str × Nat)))).1 = c4t :=
  (C4_unmarshal_error_behavior c4t none).2 rfl

/-- Claim C5, counterexample to the claim as stated: "ſ" (U+017F) and "s"
are equal under the case folding `strings.EqualFold` uses for the table's
key comparison, yet `unicode.ToLower` leaves U+017F in place, so the
default hash mixes different code points and the hashes differ. -/
theorem C5_fold_hash_mismatch :
    eqFold [383] [115] = true ∧
    defaultHashString [383] ≠ defaultHashString [115] := by
  decide

/-- Claim C5 as amended: the default hash is exactly the described FNV-1a
fold (offset basis 14695981039346656037; per character multiply by
1099511628211 then xor the lower-cased code point, in 64-bit arithmetic),
and case-insensitively-equal strings get equal hashes whenever their
fold-equality is witnessed by the lowercase mapping — in particular for
all-ASCII strings. -/
theorem C5_default_hash :
    (∀ key : Str, defaultHashString key = specDefaultHash key) ∧
    (∀ s t : Str, allASCII s = true → allASCII t = true →
      eqFold s t = true → defaultHashString s = defaultHashString t) :=
  ⟨fun _ => rfl, defaultHash_eq_of_eqFold_ascii⟩

/-- Witness for C5: the computation description at "dog", and hash
equality for the fold-equal pair "DOG"/"dog". -/
theorem C5_default_hash_witness :
    defaultHashString kDog = specDefaultHash kDog ∧
    defaultHashString [68, 79, 71] = defaultHashString kDog :=
  ⟨C5_default_hash.1 kDog,
    C5_default_hash.2 [68, 79, 71] kDog (by decide) (by decide) (by decide)⟩

/-- Claim C6, counterexample to the claim as stated: with the default
hasher, "s" and "ſ" (U+017F) are case-insensitively equal, yet after
`Add "s" 1` then `Add "ſ" 2` the table holds two logical entries
(`Len` 2, not 1) and `Get "s"` returns 1, not the most recent value 2. -/
theorem C6_unicode_variant_lost :
    eqFold [115] [383] = true ∧ m6.Get [115] = some 1 ∧ m6.Len = 2 := by
  decide

/-- Claim C6 as amended: with the default hasher, for ASCII keys `k1`,
`k2` that are case-insensitively equal, `Add k1 v1` then `Add k2 v2` on
an empty table leaves `Get` of any ASCII case variant of `k1` returning
`v2`, a single logical entry (`Len` 1), and the one stored entry carrying
the casing of the most recent insert — key exactly `k2` — which is what
serialization surfaces. -/
theorem C6_last_write_wins {T : Type} (k1 k2 q : Str) (v1 v2 : T)
    (a1 : allASCII k1 = true) (a2 : allASCII k2 = true)
    (aq : allASCII q = true)
    (e12 : eqFold k1 k2 = true) (eq1 : eqFold q k1 = true) :
    (((CIMap.New T).Add k1 v1).Add k2 v2).Get q = some v2 ∧
    (((CIMap.New T).Add k1 v1).Add k2 v2).Len = 1 ∧
    (((CIMap.New T).Add k1 v1).Add k2 v2).reachableEntries = [(k2, v2)] := by
  have e21 : eqFold k2 k1 = true := by
    rw [eqFold_iff] at e12 ⊢
    exact e12.symm
  have hh21 : defaultHashString k2 = defaultHashString k1 :=
    defaultHash_eq_of_eqFold_ascii k2 k1 a2 a1 e21
  have hhq : defaultHashString q = defaultHashString k1 :=
    defaultHash_eq_of_eqFold_ascii q k1 aq a1 eq1
  have e2q : eqFold k2 q = true := by
    rw [eqFold_iff] at e12 eq1 ⊢
    rw [← e12, eq1]
  have s1 : (CIMap.New T).Add k1 v1 =
      ⟨1, defaultHashString, [(defaultHashString k1, [(k1, v1)])]⟩ := rfl
  have s2 : (((CIMap.New T).Add k1 v1).Add k2 v2) =
      ⟨1, defaultHashString, [(defaultHashString k1, [(k2, v2)])]⟩ := by
    rw [s1]
    show CIMap.Add _ k2 v2 = _
    rw [CIMap.Add]
    simp [hh21, mapFind, insertOrReplace, e12, mapSet]
  rw [s2]
  refine ⟨?_, rfl, rfl⟩
  show chainGet ((mapFind (defaultHashString q) _).getD []) q = some v2
  rw [hhq]
  simp [mapFind, chainGet, e2q]

/-- Witness for C6: "K1" then "k1" from the spec's last-write-wins
example. -/
theorem C6_last_write_wins_witness :
    (((CIMap.New Nat).Add [75, 49] 1).Add [107, 49] 2).Get [75, 49] =
      some 2 ∧
    (((CIMap.New Nat).Add [75, 49] 1).Add [107, 49] 2).Len = 1 ∧
    (((CIMap.New Nat).Add [75, 49] 1).Add [107, 49] 2).reachableEntries =
      [([107, 49], 2)] :=
  C6_last_write_wins [75, 49] [107, 49] [75, 49] 1 2 (by decide)
    (by decide) (by decide) (by decide) (by decide)

/-- Claim C7, counterexample to the claim as stated: the claim quantifies
over every table, including one whose installed hasher is not constant
with respect to case. Under `firstHasher`, "a" and "A" occupy different
buckets; `GetAndDel "a"` succeeds with value 1, yet a subsequent `Get` of
the case variant "A" still finds 2 — not the claimed not-found. -/
theorem C7_variant_in_other_bucket :
    eqFold [65] [97] = true ∧ (m7.GetAndDel [97]).2 = some 1 ∧
    ((m7.GetAndDel [97]).1).Get [65] = some 2 := by
  decide

/-- Claim C7 as amended: `GetAndDel k` is `Get` then `Delete` of `k` as
one operation; when `k` is absent it returns not-found and the table is
completely unchanged; when `k` is present it returns the stored value,
and a subsequent `Get` of any case variant of `k` that hashes to the
same bucket under the installed hasher (all variants, whenever the
documented case-insensitive-hasher contract holds) returns not-found. -/
theorem C7_get_and_del {T : Type} (c : CIMap T) (k q : Str)
    (hh : c.hashString q = c.hashString k) :
    (c.Get k = none → c.GetAndDel k = (c, none)) ∧
    (∀ v : T, c.Get k = some v →
      (c.GetAndDel k).2 = some v ∧ ((c.GetAndDel k).1).Get q = none) := by
  constructor
  · intro h
    simp [CIMap.GetAndDel, h]
  · intro v hv
    cases hm : mapFind (c.hashString k) c.internalMap with
    | none =>
        rw [CIMap.Get, hm] at hv
        simp [chainGet] at hv
    | some n =>
        rw [CIMap.Get, hm] at hv
        simp at hv
        have hnd : (nodeDelete n k).2 = true := nodeDelete_found n k v hv
        have hget : c.Get k = some v := by rw [CIMap.Get, hm]; simpa using hv
        have hdel : c.Delete k =
            { c with internalMap := mapErase (c.hashString k) c.internalMap
                     size := c.size - 1 } := by
          rw [CIMap.Delete, hm]
          simp [hnd]
        have hgad : c.GetAndDel k = (c.Delete k, some v) := by
          rw [CIMap.GetAndDel, hget]
        constructor
        · rw [hgad]
        · rw [hgad, hdel]
          simp [CIMap.Get, hh, mapFind_mapErase_self, chainGet]

/-- Witness for C7: deleting the present key "temp" returns its value and
a subsequent `Get` of the same key is not-found. -/
theorem C7_get_and_del_witness :
    (c7w.GetAndDel [116, 101, 109, 112]).2 = some 5 ∧
    ((c7w.GetAndDel [116, 101, 109, 112]).1).Get [116, 101, 109, 112] =
      none :=
  (C7_get_and_del c7w [116, 101, 109, 112] [116, 101, 109, 112] rfl).2 5
    (by decide)

/-- Claim C8: `Get` tolerates hash collisions. For any installed hasher
and any two keys that are not case-insensitively equal but share a hash,
inserting both (spec scenario: "dog" and "cat" under the length hasher)
leaves each retrievable with its own value — colliding chain entries are
skipped, never treated as matches — and both count in `Len`. -/
theorem C8_collision_tolerant {T : Type} (fn : Str → Nat) (d k : Str)
    (u v : T) (hne : eqFold d k = false) (hcol : fn d = fn k) :
    ((((CIMap.New T).SetHasher fn).Add k v).Add d u).Get d = some u ∧
    ((((CIMap.New T).SetHasher fn).Add k v).Add d u).Get k = some v ∧
    ((((CIMap.New T).SetHasher fn).Add k v).Add d u).Len = 2 := by
  have hkd : eqFold k d = false := eqFold_comm_false d k hne
  have s0 : (CIMap.New T).SetHasher fn = ⟨0, fn, []⟩ := rfl
  have s1 : ((CIMap.New T).SetHasher fn).Add k v =
      ⟨1, fn, [(fn k, [(k, v)])]⟩ := by
    rw [s0]
    rfl
  have s2 : ((((CIMap.New T).SetHasher fn).Add k v).Add d u) =
      ⟨2, fn, [(fn k, [(k, v), (d, u)])]⟩ := by
    rw [s1]
    show CIMap.Add _ d u = _
    rw [CIMap.Add]
    simp [hcol, mapFind, insertOrReplace, hkd, mapSet]
  rw [s2]
  refine ⟨?_, ?_, rfl⟩
  · show chainGet ((mapFind (fn d) _).getD []) d = some u
    rw [hcol]
    simp [mapFind, chainGet, hkd, eqFold_refl]
  · show chainGet ((mapFind (fn k) _).getD []) k = some v
    simp [mapFind, chainGet, eqFold_refl]

/-- Witness for C8: the spec's concrete scenario — length hasher, "dog"
and "cat" colliding in bucket 3, each `Get` returning its own value. -/
theorem C8_collision_tolerant_witness :
    ((((CIMap.New Nat).SetHasher lenHasher).Add kCat 7).Add kDog 9).Get
      kDog = some 9 ∧
    ((((CIMap.New Nat).SetHasher lenHasher).Add kCat 7).Add kDog 9).Get
      kCat = some 7 ∧
    ((((CIMap.New Nat).SetHasher lenHasher).Add kCat 7).Add kDog 9).Len =
      2 :=
  C8_collision_tolerant lenHasher kDog kCat 9 7 (by decide) (by decide)

/-- Claim C9, counterexample to the claim as stated: `badTable` is
reachable by public operations, its `Len` is 1, yet a full traversal with
an always-continue consumer visits 0 elements — not `Len()` many — and a
stop-after-first consumer also cannot visit one element. -/
theorem C9_visits_differ_from_len :
    badTable.Len = 1 ∧ badTable.ForEach (fun _ _ => true) = [] := by
  decide

/-- Claim C9 as amended: a traversal via `Keys`, `Iterator`, or `ForEach`
whose consumer always continues visits exactly the entries reachable by
walking the buckets (this count equals `Len()` whenever the size
invariant holds, which the code's `Delete` can break); a consumer that
signals stop after the first element visits exactly one element on any
table with at least one reachable entry, with no further visits after the
stop signal. -/
theorem C9_traversal_counts {T : Type} (c : CIMap T) :
    c.ForEach (fun _ _ => true) = c.reachableEntries ∧
    c.Iterator (fun _ _ => true) = c.reachableEntries ∧
    c.Keys (fun _ => true) = c.reachableEntries.map Prod.fst ∧
    (c.reachableEntries ≠ [] →
      (c.ForEach (fun _ _ => false)).length = 1 ∧
      (c.Iterator (fun _ _ => false)).length = 1 ∧
      (c.Keys (fun _ => false)).length = 1) := by
  refine ⟨bucketsTraverse_true c.internalMap,
    bucketsTraverse_true c.internalMap, ?_, ?_⟩
  · show (bucketsTraverse (fun k _ => true) c.internalMap).map Prod.fst = _
    rw [show (fun (k : Str) (_ : T) => true) = (fun _ _ => true) from rfl]
    rw [bucketsTraverse_true c.internalMap]
    rfl
  · intro hne
    refine ⟨bucketsTraverse_false c.internalMap hne,
      bucketsTraverse_false c.internalMap hne, ?_⟩
    show ((bucketsTraverse (fun k _ => false) c.internalMap).map
      Prod.fst).length = 1
    rw [List.length_map]
    exact bucketsTraverse_false c.internalMap hne

/-- Witness for C9: on the concrete two-entry table, the full traversal
visits exactly the reachable entries and the stop-after-first traversal
visits exactly one. -/
theorem C9_traversal_counts_witness :
    c9t.ForEach (fun _ _ => true) = c9t.reachableEntries ∧
    (c9t.ForEach (fun _ _ => false)).length = 1 :=
  ⟨(C9_traversal_counts c9t).1,
    ((C9_traversal_counts c9t).2.2.2 (by decide)).1⟩

/-- Claim C10: `Get`, `Len`, `Keys`, `Iterator`, `ForEach` and
`MarshalJSON` assign no field of the receiver and no field of any chain
entry; in state-passing form each returns the table state exactly as it
was — size, installed hash function, and every stored entry included. -/
theorem C10_observers_pure {T : Type} (c : CIMap T) (k : Str)
    (f : Str → T → Bool) (g : Str → Bool) :
    (c.GetOp k).1 = c ∧ c.LenOp.1 = c ∧ (c.KeysOp g).1 = c ∧
    (c.IteratorOp f).1 = c ∧ (c.ForEachOp f).1 = c ∧ c.MarshalOp.1 = c :=
  ⟨rfl, rfl, rfl, rfl, rfl, rfl⟩
